import Mathlib

/-!
Verification development for the catalog-comparison tool
(`osp_index_info/main.py`).  The Python code is shallowly embedded below:
pure string manipulation becomes Lean functions on `String`, the
insertion-ordered Python `dict` becomes an association list with an
order-preserving update, effectful resolution (podman, GitHub lookups)
becomes explicit oracle functions, and log/warning emission becomes
inductive message values carried alongside results.
-/

/-! ## Insertion-ordered dictionaries

Python dicts preserve insertion order; assigning to an existing key keeps
its original position.  `dset` models assignment, `dlookup` models `get`.
All dictionaries in the embedded code start empty and are only modified
through `dset`, so keys stay pairwise distinct. -/

def dlookup {κ α : Type} [DecidableEq κ] (k : κ) : List (κ × α) → Option α
  | [] => none
  | p :: rest => if p.1 = k then some p.2 else dlookup k rest

def dset {κ α : Type} [DecidableEq κ] (k : κ) (v : α) : List (κ × α) → List (κ × α)
  | [] => [(k, v)]
  | p :: rest => if p.1 = k then (k, v) :: rest else p :: dset k v rest

def dkeys {κ α : Type} (d : List (κ × α)) : List κ := d.map Prod.fst

/-! ## Python truthiness for optional strings

`None` and the empty string are falsy; every other string is truthy. -/

def truthyS : Option String → Bool
  | none => false
  | some s => !s.isEmpty

/-! ## Image (the ImageResolver of the spec)

`Image.__init__` derives the component name from the reference:
`image_repo_full = image_ref.split("@")[0]` and
`image_repo = image_repo_full.split("/")[-1]`.

`splitOnChar` is Python `str.split` with a one-character separator,
written on the character list of the string so that it computes by
structural recursion. -/

def splitOnChar (sep : Char) : List Char → List (List Char)
  | [] => [[]]
  | c :: rest =>
    let r := splitOnChar sep rest
    if c = sep then [] :: r
    else (c :: r.headD []) :: r.tail

def imageRepo (ref : String) : String :=
  ⟨(splitOnChar '/' ((splitOnChar '@' ref.data).headD [])).getLastD []⟩

/-- The static `IMAGE_REPO_TO_GIT_REPO` table from `osp_index_info/main.py`
(component name to upstream repo slug; empty string = intentionally
untracked, absent key = unknown). -/
def IMAGE_REPO_TO_GIT_REPO : List (String × String) := [
  ("pipelines-cache-rhel9", "openshift-pipelines/tekton-caches"),
  ("pipelines-chains-controller-rhel9", "tektoncd/chains"),
  ("pipelines-cli-tkn-rhel9", "tektoncd/cli"),
  ("pipelines-console-plugin-rhel9", "openshift-pipelines/console-plugin"),
  ("pipelines-controller-rhel9", "tektoncd/pipeline"),
  ("pipelines-entrypoint-rhel9", "tektoncd/pipeline"),
  ("pipelines-events-rhel9", "tektoncd/pipeline"),
  ("pipelines-git-init-rhel9", "openshift-pipelines/tektoncd-git-clone"),
  ("pipelines-hub-api-rhel9", "tektoncd/hub"),
  ("pipelines-hub-db-migration-rhel9", "tektoncd/hub"),
  ("pipelines-hub-ui-rhel9", "tektoncd/hub"),
  ("pipelines-manual-approval-gate-controller-rhel9", "openshift-pipelines/manual-approval-gate"),
  ("pipelines-manual-approval-gate-webhook-rhel9", "openshift-pipelines/manual-approval-gate"),
  ("pipelines-nop-rhel9", "tektoncd/pipeline"),
  ("pipelines-opc-rhel9", ""),
  ("pipelines-operator-bundle", "tektoncd/operator"),
  ("pipelines-operator-proxy-rhel9", "tektoncd/operator"),
  ("pipelines-operator-webhook-rhel9", "tektoncd/operator"),
  ("pipelines-pipelines-as-code-cli-rhel9", "openshift-pipelines/pipelines-as-code"),
  ("pipelines-pipelines-as-code-controller-rhel9", "openshift-pipelines/pipelines-as-code"),
  ("pipelines-pipelines-as-code-watcher-rhel9", "openshift-pipelines/pipelines-as-code"),
  ("pipelines-pipelines-as-code-webhook-rhel9", "openshift-pipelines/pipelines-as-code"),
  ("pipelines-pruner-controller-rhel9", "tektoncd/pruner"),
  ("pipelines-resolvers-rhel9", "tektoncd/pipeline"),
  ("pipelines-results-api-rhel9", "tektoncd/results"),
  ("pipelines-results-retention-policy-agent-rhel9", "tektoncd/results"),
  ("pipelines-results-watcher-rhel9", "tektoncd/results"),
  ("pipelines-rhel9-operator", "tektoncd/operator"),
  ("pipelines-sidecarlogresults-rhel9", "tektoncd/pipeline"),
  ("pipelines-triggers-controller-rhel9", "tektoncd/triggers"),
  ("pipelines-triggers-core-interceptors-rhel9", "tektoncd/triggers"),
  ("pipelines-triggers-eventlistenersink-rhel9", "tektoncd/triggers"),
  ("pipelines-triggers-webhook-rhel9", "tektoncd/triggers"),
  ("pipelines-webhook-rhel9", "tektoncd/pipeline"),
  ("pipelines-workingdirinit-rhel9", "tektoncd/pipeline")]

/-- `self.code_repo = IMAGE_REPO_TO_GIT_REPO.get(self.image_repo)` -/
def codeRepo (ref : String) : Option String :=
  dlookup (imageRepo ref) IMAGE_REPO_TO_GIT_REPO

/-- Oracle for the effectful resolution done by `Image.upstream_commit`
(podman label / kodata HEAD extraction): `none` models Python `None`
(resolution failed), `some s` a resolved string.  The per-image result is
memoized in the source, so one function of the reference is faithful. -/
structure Resolver where
  upstream : String → Option String

/-- `Image.git_link`: present only when both `code_repo` and
`upstream_commit()` are truthy. -/
def gitLink (res : Resolver) (ref : String) : Option String :=
  if truthyS (codeRepo ref) && truthyS (res.upstream ref) then
    some ("github.com/" ++ (codeRepo ref).getD "" ++ "/commit/" ++ (res.upstream ref).getD "")
  else none

/-! ## RepoChange -/

structure RepoChange where
  image_name : String
  git_repo : Option String
  old_revision : Option String
  new_revision : Option String
deriving DecidableEq, Repr

/-- `RepoChange.from_images(old_image, new_image)`. -/
def RepoChange.from_images (res : Resolver) (oldRef newRef : String) : RepoChange :=
  { image_name := imageRepo newRef
    git_repo := codeRepo newRef
    old_revision := res.upstream oldRef
    new_revision := res.upstream newRef }

/-! ## get_changes (the change matcher)

Log messages emitted by `get_changes` via `logger.warning`; the rendered
texts are in `LogMsg.render`. -/

inductive LogMsg where
  | skipMissingImage (repo : String)
  | skipNoUpstreamInfo (repo : String)
deriving DecidableEq, Repr

def LogMsg.render : LogMsg → String
  | .skipMissingImage repo => "Skipping image " ++ repo ++ " - missing image to compare"
  | .skipNoUpstreamInfo repo => "Skipping image " ++ repo ++ " - no upstream info"

/-- First loop of `get_changes`: `images_by_image_repo[img.image_repo] = [img]`
for each image of the new bundle (plain assignment: a repeated component
name replaces the earlier entry). -/
def groupNew (newRefs : List String) : List (String × List String) :=
  newRefs.foldl (fun d r => dset (imageRepo r) [r] d) []

/-- One iteration of the second loop of `get_changes`: an old-bundle image
is appended to an existing group
(`if images_by_image_repo.get(img.image_repo):` — a missing key or an
empty list is falsy) and dropped otherwise. -/
def addOldStep (d : List (String × List String)) (r : String) : List (String × List String) :=
  match dlookup (imageRepo r) d with
  | some l => if l.isEmpty then d else dset (imageRepo r) (l ++ [r]) d
  | none => d

/-- Second loop of `get_changes` over all old-bundle images. -/
def addOld (d : List (String × List String)) (oldRefs : List String) : List (String × List String) :=
  oldRefs.foldl addOldStep d

def buildGroups (newRefs oldRefs : List String) : List (String × List String) :=
  addOld (groupNew newRefs) oldRefs

abbrev Changes := List (Option String × RepoChange)

/-- `None in [old_image.git_link, new_image.git_link,
old_image.upstream_commit(), new_image.upstream_commit()]` is false, i.e.
all four are present. -/
def resolvesPair (res : Resolver) (oldRef newRef : String) : Bool :=
  (gitLink res oldRef).isSome && (gitLink res newRef).isSome &&
  (res.upstream oldRef).isSome && (res.upstream newRef).isSome

/-- `new_image = imgs[0]` in the third loop of `get_changes`. -/
def groupNewRef (g : String × List String) : String := g.2.headD ""

/-- `old_image = imgs[1]` in the third loop of `get_changes`. -/
def groupOldRef (g : String × List String) : String := (g.2.drop 1).headD ""

/-- `key = new_image.code_repo`. -/
def groupKey (g : String × List String) : Option String := codeRepo (groupNewRef g)

/-- `key in changes and changes[key].old_revision is not None and
changes[key].new_revision is not None`. -/
def skipDone (cs : Changes) (key : Option String) : Bool :=
  match dlookup key cs with
  | some rc => rc.old_revision.isSome && rc.new_revision.isSome
  | none => false

/-- One iteration of the third loop of `get_changes`: length check first
(log and skip), then the already-complete-slug check (silent skip), then
the upstream-info check (log and skip), then the assignment
`changes[key] = RepoChange.from_images(old_image, new_image)`. -/
def processGroup (res : Resolver) (st : Changes × List LogMsg) (g : String × List String) :
    Changes × List LogMsg :=
  if g.2.length ≠ 2 then (st.1, st.2 ++ [LogMsg.skipMissingImage g.1])
  else if skipDone st.1 (groupKey g) then st
  else if resolvesPair res (groupOldRef g) (groupNewRef g) then
    (dset (groupKey g) (RepoChange.from_images res (groupOldRef g) (groupNewRef g)) st.1, st.2)
  else (st.1, st.2 ++ [LogMsg.skipNoUpstreamInfo g.1])

/-- `get_changes(old_bundle, new_bundle)`, with each bundle given by its
(already traversal-ordered) image reference list and the effectful
upstream resolution given by `res`.  Returns the `changes` dict (the
Python function returns `changes.values()`, i.e. the second components in
order) together with the emitted log. -/
def get_changes (res : Resolver) (newRefs oldRefs : List String) : Changes × List LogMsg :=
  (buildGroups newRefs oldRefs).foldl (processGroup res) ([], [])

/-! ## RepoChange.warnings -/

inductive Warning where
  | unableToFind (sha8 : String) (repo : String)
  | inversion (newSha8 newDate oldSha8 oldDate : String)
  | noRevision (which : String)
deriving DecidableEq, Repr

def Warning.render : Warning → String
  | .unableToFind sha8 repo => "unable to find revision " ++ sha8 ++ " in repo " ++ repo
  | .inversion newSha8 newDate oldSha8 oldDate =>
      "new revision " ++ newSha8 ++ " (" ++ newDate ++ ") created before old revision "
        ++ oldSha8 ++ " (" ++ oldDate ++ ")"
  | .noRevision which => "no " ++ which ++ " revision to compare"

/-- Python string comparison is lexicographic on code points; `pyStrLt`
and `pyStrLe` model `<` and `<=` on `str`, written structurally on the
character lists. -/
def charListLt : List Char → List Char → Bool
  | _, [] => false
  | [], _ :: _ => true
  | a :: as, b :: bs => if a < b then true else if b < a then false else charListLt as bs

def pyStrLt (a b : String) : Bool := charListLt a.data b.data

def pyStrLe (a b : String) : Bool := !(pyStrLt b a)

/-- The inner `commit_date` helper of `warnings()`: a date oracle result of
`none` models an `HTTPError` (warning appended, empty date returned);
`some d` models a successful lookup of the committer date field, with the
JSON `.get` default making a missing field the empty string. -/
def commitDateLookup (dates : String → String → Option String) (repo sha : String) :
    String × List Warning :=
  match dates repo sha with
  | some d => (d, [])
  | none => ("", [Warning.unableToFind (sha.take 8) repo])

/-- `RepoChange.warnings()`.  The outer conditions mirror
`if self.git_repo and self.old_revision and self.new_revision: ...
elif self.git_repo: ...` with Python string truthiness; inside the first
branch both dates are looked up (old first), then the inversion test
`old_date and new_date and new_date <= old_date and
self.old_revision != self.new_revision` runs on the two date strings. -/
def RepoChange.warningsList (rc : RepoChange) (dates : String → String → Option String) :
    List Warning :=
  if truthyS rc.git_repo && truthyS rc.old_revision && truthyS rc.new_revision then
    let repo := rc.git_repo.getD ""
    let oldRev := rc.old_revision.getD ""
    let newRev := rc.new_revision.getD ""
    let oldP := commitDateLookup dates repo oldRev
    let newP := commitDateLookup dates repo newRev
    oldP.2 ++ newP.2 ++
      (if !oldP.1.isEmpty && !newP.1.isEmpty && pyStrLe newP.1 oldP.1 && !(oldRev == newRev)
       then [Warning.inversion (newRev.take 8) newP.1 (oldRev.take 8) oldP.1]
       else [])
  else if truthyS rc.git_repo then
    [Warning.noRevision (if truthyS rc.old_revision then "new" else "old")]
  else []

/-- Surviving pair of the matcher keyed to repo slug `s`: the group has
exactly two images (new and old) and the new image maps to slug `s`. -/
def survivorB (s : String) (g : String × List String) : Bool :=
  (g.2.length == 2) && (groupKey g == some s)

/-- Surviving pair keyed to slug `s` whose images fully resolve: this is
the pair the assignment in `get_changes` would store. -/
def candB (res : Resolver) (s : String) (g : String × List String) : Bool :=
  survivorB s g && resolvesPair res (groupOldRef g) (groupNewRef g)

/-- All stored changes carry both revisions: an invariant of the
`changes` dict in `get_changes` (entries are created only after the
upstream-info check). -/
def changesComplete (cs : Changes) : Prop :=
  ∀ p ∈ cs, p.2.old_revision.isSome = true ∧ p.2.new_revision.isSome = true

/-- Python f-string interpolation of an optional value (`None` prints as
the text "None"). -/
def pyStr : Option String → String
  | none => "None"
  | some s => s

/-- `RepoChange.compare_url()`. -/
def RepoChange.compare_url (rc : RepoChange) : String :=
  "https://api.github.com/repos/" ++ pyStr rc.git_repo ++ "/compare/"
    ++ pyStr rc.old_revision ++ "..." ++ pyStr rc.new_revision

/-! ## RepoChange comparison fetching

`_comparison` runs `urlopen(self.compare_url())` and decodes the JSON
body; it is wrapped in `functools.cache`, which stores successful results
only — a raised exception propagates to the caller and nothing is cached.
The state below is the cache cell of one RepoChange instance; the
`remote` argument is the transport oracle, where `none` models a raised
transport error and `some resp` a decoded response. -/

structure ComparisonResp where
  commits : Option (List String)
deriving DecidableEq, Repr

structure FetchOutcome where
  result : Except Unit ComparisonResp
  cacheAfter : Option ComparisonResp
  fetches : Nat
deriving Repr

/-- One call of `_comparison()`: a populated cache answers without
fetching; otherwise one fetch happens, and only a successful response is
stored in the cache. -/
def comparisonStep (cache : Option ComparisonResp) (remote : Option ComparisonResp) :
    FetchOutcome :=
  match cache with
  | some resp => ⟨Except.ok resp, some resp, 0⟩
  | none =>
    match remote with
    | some resp => ⟨Except.ok resp, some resp, 1⟩
    | none => ⟨Except.error (), none, 1⟩

/-- One call of `commits()` = `self._comparison().get("commits", [])`; a
raised transport error propagates unchanged. -/
def commitsStep (cache : Option ComparisonResp) (remote : Option ComparisonResp) :
    Except Unit (List String) × Option ComparisonResp × Nat :=
  let o := comparisonStep cache remote
  (o.result.map (fun resp => resp.commits.getD []), o.cacheAfter, o.fetches)

/-! ## Image.clean

`clean()` runs `podman container rm {self._container_id}` whenever
`_container_id` is not None, and it never resets `_container_id`
afterwards.  The state is the `_container_id` attribute; the output lists
the removal commands issued by the call. -/

structure ImageHandleState where
  containerId : Option String
deriving DecidableEq, Repr

inductive CleanAction where
  | removeContainer (id : String)
deriving DecidableEq, Repr

def cleanStep (st : ImageHandleState) : ImageHandleState × List CleanAction :=
  match st.containerId with
  | some cid => (st, [CleanAction.removeContainer cid])
  | none => (st, [])

/-- Two consecutive calls of `clean()` on one resolver, collecting all
removal commands issued. -/
def cleanTwice (st : ImageHandleState) : ImageHandleState × List CleanAction :=
  let r1 := cleanStep st
  let r2 := cleanStep r1.1
  (r2.1, r1.2 ++ r2.2)

/-! ## Bundle.images and set-iteration order

`Bundle.images` filters `relatedImages` records to those with truthy
`image` and `name` fields, keeps the `image` strings, and deduplicates
them with `set(image_list)` before building Image objects.  Iterating a
Python `set` of strings yields each distinct element once in an order
that depends on string hashing (randomized per interpreter run), so the
traversal order is modeled as any duplicate-free enumeration of the
deduplicated references. -/

def bundleImageList (related : List (Option String × Option String)) : List String :=
  (related.filter (fun p => truthyS p.2 && truthyS p.1)).map (fun p => p.2.getD "")

def isSetOrder (refs ord : List String) : Prop :=
  ord.Nodup ∧ (∀ r ∈ refs, r ∈ ord) ∧ (∀ r ∈ ord, r ∈ refs)

/-- Bool recognizer for the time-inversion warning shape. -/
def isInversion : Warning → Bool
  | .inversion _ _ _ _ => true
  | _ => false

/-! ## Concrete instances used by counterexamples and witnesses -/

def c1NewRefs : List String :=
  ["registry.example/rh/pipelines-controller-rhel9@sha256:a2",
   "registry.example/rh/pipelines-cli-tkn-rhel9@sha256:b2"]

def c1OldRefs : List String :=
  ["registry.example/rh/pipelines-controller-rhel9@sha256:a1",
   "registry.example/rh/pipelines-chains-controller-rhel9@sha256:c1"]

def c1Res : Resolver :=
  ⟨fun r =>
    if r = "registry.example/rh/pipelines-controller-rhel9@sha256:a2" then some "newA"
    else if r = "registry.example/rh/pipelines-controller-rhel9@sha256:a1" then some "oldA"
    else if r = "registry.example/rh/pipelines-cli-tkn-rhel9@sha256:b2" then some "upB"
    else some "upC"⟩

def c2NewRefs : List String :=
  ["a/pipelines-controller-rhel9@sha256:1", "b/pipelines-controller-rhel9@sha256:2"]

def c2OldRefs : List String := ["c/pipelines-controller-rhel9@sha256:3"]

def c2Res : Resolver :=
  ⟨fun r =>
    if r = "a/pipelines-controller-rhel9@sha256:1" then some "u1"
    else if r = "b/pipelines-controller-rhel9@sha256:2" then some "u2"
    else some "u3"⟩

def c3NewRefs : List String :=
  ["x/pipelines-controller-rhel9@sha256:n1", "x/pipelines-webhook-rhel9@sha256:n2"]

def c3OldRefs : List String :=
  ["x/pipelines-controller-rhel9@sha256:o1", "x/pipelines-webhook-rhel9@sha256:o2"]

def c3Res : Resolver :=
  ⟨fun r =>
    if r = "x/pipelines-controller-rhel9@sha256:n1" then some "cNew"
    else if r = "x/pipelines-controller-rhel9@sha256:o1" then some "cOld"
    else if r = "x/pipelines-webhook-rhel9@sha256:n2" then some "wNew"
    else some "wOld"⟩

def c8Refs : List String :=
  ["a/pipelines-controller-rhel9@sha256:1", "b/pipelines-controller-rhel9@sha256:2"]

def c8Ord2 : List String :=
  ["b/pipelines-controller-rhel9@sha256:2", "a/pipelines-controller-rhel9@sha256:1"]

def c8OldRefs : List String := ["c/pipelines-controller-rhel9@sha256:3"]

def c8Res : Resolver :=
  ⟨fun r =>
    if r = "a/pipelines-controller-rhel9@sha256:1" then some "u1"
    else if r = "b/pipelines-controller-rhel9@sha256:2" then some "u2"
    else some "u3"⟩

def c8ResB : Resolver :=
  ⟨fun r =>
    if r = "a/pipelines-controller-rhel9@sha256:1" then some "u1"
    else if r = "b/pipelines-controller-rhel9@sha256:2" then some "u2"
    else if r = "unrelated/ref" then some "different-answer"
    else some "u3"⟩

def c5Rc : RepoChange :=
  ⟨"pipelines-controller-rhel9", some "tektoncd/pipeline",
   some "aaaaaaaaXoldsha", some "bbbbbbbbXnewsha"⟩

def c5Dates : String → String → Option String :=
  fun _ sha => if sha = "aaaaaaaaXoldsha" then some "2024-05-01" else some "2024-01-01"

def c6Rc : RepoChange := ⟨"img", some "org/r", none, none⟩

def c10Rc : RepoChange := ⟨"img", some "", none, some "abc"⟩

/-! ## Association-list lemmas -/

theorem dlookup_dset_self {κ α : Type} [DecidableEq κ] (k : κ) (v : α) (d : List (κ × α)) :
    dlookup k (dset k v d) = some v := by
  induction d with
  | nil => simp [dset, dlookup]
  | cons p rest ih =>
    by_cases h : p.1 = k
    · simp [dset, h, dlookup]
    · simp [dset, h, dlookup, ih]

theorem dlookup_dset_ne {κ α : Type} [DecidableEq κ] {k' k : κ} (h : k' ≠ k) (v : α)
    (d : List (κ × α)) : dlookup k' (dset k v d) = dlookup k' d := by
  have h' := Ne.symm h
  induction d with
  | nil => simp [dset, dlookup, h']
  | cons p rest ih =>
    by_cases hp : p.1 = k
    · simp [dset, hp, dlookup, h']
    · simp [dset, hp, dlookup, ih]

theorem mem_dset {κ α : Type} [DecidableEq κ] {p : κ × α} {k : κ} {v : α} {d : List (κ × α)}
    (h : p ∈ dset k v d) : p = (k, v) ∨ p ∈ d := by
  induction d with
  | nil =>
    simp [dset] at h
    exact Or.inl h
  | cons q rest ih =>
    by_cases hq : q.1 = k
    · simp [dset, hq] at h
      rcases h with h | h
      · exact Or.inl (by simp [h])
      · exact Or.inr (List.mem_cons_of_mem _ h)
    · simp [dset, hq] at h
      rcases h with h | h
      · exact Or.inr (by simp [h])
      · rcases ih h with h' | h'
        · exact Or.inl h'
        · exact Or.inr (List.mem_cons_of_mem _ h')

theorem dlookup_mem {κ α : Type} [DecidableEq κ] {k : κ} {v : α} {d : List (κ × α)}
    (h : dlookup k d = some v) : (k, v) ∈ d := by
  induction d with
  | nil => simp [dlookup] at h
  | cons p rest ih =>
    obtain ⟨pk, pv⟩ := p
    by_cases hp : pk = k
    · simp only [dlookup, hp, if_pos rfl] at h
      simp at h
      simp [hp, h]
    · simp only [dlookup] at h
      rw [if_neg hp] at h
      exact List.mem_cons_of_mem _ (ih h)
theorem dkeys_cons {κ α : Type} (p : κ × α) (d : List (κ × α)) :
    dkeys (p :: d) = p.1 :: dkeys d := rfl

theorem dset_cons_eq {κ α : Type} [DecidableEq κ] {p : κ × α} {k : κ} (v : α)
    (d : List (κ × α)) (hp : p.1 = k) : dset k v (p :: d) = (k, v) :: d := by
  simp [dset, hp]

theorem dset_cons_ne {κ α : Type} [DecidableEq κ] {p : κ × α} {k : κ} (v : α)
    (d : List (κ × α)) (hp : p.1 ≠ k) : dset k v (p :: d) = p :: dset k v d := by
  simp [dset, hp]

theorem dlookup_cons_eq {κ α : Type} [DecidableEq κ] {p : κ × α} {k : κ}
    (d : List (κ × α)) (hp : p.1 = k) : dlookup k (p :: d) = some p.2 := by
  simp [dlookup, hp]

theorem dlookup_cons_ne {κ α : Type} [DecidableEq κ] {p : κ × α} {k : κ}
    (d : List (κ × α)) (hp : p.1 ≠ k) : dlookup k (p :: d) = dlookup k d := by
  simp [dlookup, hp]

theorem mem_dkeys_dset {κ α : Type} [DecidableEq κ] {x k : κ} {v : α} {d : List (κ × α)}
    (h : x ∈ dkeys (dset k v d)) : x = k ∨ x ∈ dkeys d := by
  induction d with
  | nil =>
    have e : dkeys (dset k v ([] : List (κ × α))) = [k] := rfl
    rw [e] at h
    exact Or.inl (List.mem_singleton.mp h)
  | cons p rest ih =>
    by_cases hp : p.1 = k
    · rw [dset_cons_eq v rest hp, dkeys_cons] at h
      rw [dkeys_cons]
      rcases List.mem_cons.mp h with h | h
      · exact Or.inl h
      · exact Or.inr (List.mem_cons_of_mem _ h)
    · rw [dset_cons_ne v rest hp, dkeys_cons] at h
      rw [dkeys_cons]
      rcases List.mem_cons.mp h with h | h
      · exact Or.inr (h ▸ List.mem_cons_self _ _)
      · rcases ih h with h' | h'
        · exact Or.inl h'
        · exact Or.inr (List.mem_cons_of_mem _ h')

theorem nodup_dkeys_dset {κ α : Type} [DecidableEq κ] (k : κ) (v : α) {d : List (κ × α)}
    (h : (dkeys d).Nodup) : (dkeys (dset k v d)).Nodup := by
  induction d with
  | nil =>
    have e : dkeys (dset k v ([] : List (κ × α))) = [k] := rfl
    rw [e]
    exact List.nodup_singleton k
  | cons p rest ih =>
    rw [dkeys_cons, List.nodup_cons] at h
    by_cases hp : p.1 = k
    · rw [dset_cons_eq v rest hp, dkeys_cons, List.nodup_cons]
      exact ⟨hp ▸ h.1, h.2⟩
    · rw [dset_cons_ne v rest hp, dkeys_cons, List.nodup_cons]
      refine ⟨fun hmem => ?_, ih h.2⟩
      rcases mem_dkeys_dset hmem with h' | h'
      · exact hp h'
      · exact h.1 h'

theorem filter_key_eq_nil {κ α : Type} [DecidableEq κ] [BEq κ] [LawfulBEq κ] {k : κ}
    {d : List (κ × α)} (h : k ∉ dkeys d) : d.filter (fun p => p.1 == k) = [] := by
  induction d with
  | nil => rfl
  | cons p rest ih =>
    rw [dkeys_cons] at h
    rw [List.filter_cons, if_neg (by
      simp only [beq_iff_eq, decide_eq_true_eq]
      intro e
      exact h (by rw [← e]; exact List.mem_cons_self _ _))]
    exact ih (fun hm => h (List.mem_cons_of_mem _ hm))

theorem filter_key_of_dlookup {κ α : Type} [DecidableEq κ] [BEq κ] [LawfulBEq κ] {k : κ} {v : α}
    {d : List (κ × α)} (hnd : (dkeys d).Nodup) (h : dlookup k d = some v) :
    d.filter (fun p => p.1 == k) = [(k, v)] := by
  induction d with
  | nil => simp [dlookup] at h
  | cons p rest ih =>
    rw [dkeys_cons, List.nodup_cons] at hnd
    by_cases hp : p.1 = k
    · rw [dlookup_cons_eq rest hp] at h
      have hv : p.2 = v := by injection h
      rw [List.filter_cons, if_pos (by simp [hp])]
      rw [filter_key_eq_nil (hp ▸ hnd.1)]
      have : p = (k, v) := Prod.ext hp hv
      rw [this]
    · rw [dlookup_cons_ne rest hp] at h
      rw [List.filter_cons, if_neg (by simp [hp])]
      exact ih hnd.2 h

/-! ## Invariants of the changes fold in get_changes -/

theorem resolvesPair_parts {res : Resolver} {oldRef newRef : String}
    (h : resolvesPair res oldRef newRef = true) :
    (gitLink res oldRef).isSome = true ∧ (gitLink res newRef).isSome = true ∧
    (res.upstream oldRef).isSome = true ∧ (res.upstream newRef).isSome = true := by
  simp [resolvesPair] at h
  exact ⟨h.1.1.1, h.1.1.2, h.1.2, h.2⟩

theorem processGroup_complete {res : Resolver} {st : Changes × List LogMsg}
    {g : String × List String} (h : changesComplete st.1) :
    changesComplete (processGroup res st g).1 := by
  unfold processGroup
  split
  · exact h
  · split
    · exact h
    · split
      · next hres =>
        intro p hp
        rcases mem_dset hp with rfl | hp'
        · have parts := resolvesPair_parts hres
          exact ⟨parts.2.2.1, parts.2.2.2⟩
        · exact h p hp'
      · exact h

theorem fold_complete {res : Resolver} (l : List (String × List String))
    {st : Changes × List LogMsg} (h : changesComplete st.1) :
    changesComplete ((l.foldl (processGroup res) st)).1 := by
  induction l generalizing st with
  | nil => exact h
  | cons g rest ih => exact ih (processGroup_complete h)

theorem skipDone_of_complete {cs : Changes} {key : Option String} {rc : RepoChange}
    (hc : changesComplete cs) (h : dlookup key cs = some rc) :
    skipDone cs key = true := by
  have hmem := hc _ (dlookup_mem h)
  unfold skipDone
  rw [h]
  simp [hmem.1, hmem.2]

theorem processGroup_persist {res : Resolver} {st : Changes × List LogMsg}
    {g : String × List String} {k : Option String} {rc : RepoChange}
    (hc : changesComplete st.1) (h : dlookup k st.1 = some rc) :
    dlookup k (processGroup res st g).1 = some rc := by
  unfold processGroup
  split
  · exact h
  · split
    · exact h
    · next hskip =>
      split
      · by_cases hk : groupKey g = k
        · exact absurd (skipDone_of_complete hc (hk ▸ h)) hskip
        · rw [dlookup_dset_ne (fun e => hk e.symm)]
          exact h
      · exact h

theorem fold_persist {res : Resolver} (l : List (String × List String))
    {st : Changes × List LogMsg} {k : Option String} {rc : RepoChange}
    (hc : changesComplete st.1) (h : dlookup k st.1 = some rc) :
    dlookup k ((l.foldl (processGroup res) st)).1 = some rc := by
  induction l generalizing st with
  | nil => exact h
  | cons g rest ih => exact ih (processGroup_complete hc) (processGroup_persist hc h)

theorem processGroup_nodup {res : Resolver} {st : Changes × List LogMsg}
    {g : String × List String} (h : (dkeys st.1).Nodup) :
    (dkeys (processGroup res st g).1).Nodup := by
  unfold processGroup
  split
  · exact h
  · split
    · exact h
    · split
      · exact nodup_dkeys_dset _ _ h
      · exact h

theorem fold_nodup {res : Resolver} (l : List (String × List String))
    {st : Changes × List LogMsg} (h : (dkeys st.1).Nodup) :
    (dkeys ((l.foldl (processGroup res) st)).1).Nodup := by
  induction l generalizing st with
  | nil => exact h
  | cons g rest ih => exact ih (processGroup_nodup h)

theorem processGroup_inert {res : Resolver} {st : Changes × List LogMsg}
    {g : String × List String} {rc : RepoChange} (hc : changesComplete st.1)
    (hlen : g.2.length = 2) (hk : dlookup (groupKey g) st.1 = some rc) :
    processGroup res st g = st := by
  unfold processGroup
  rw [if_neg (by simp [hlen])]
  rw [if_pos (skipDone_of_complete hc hk)]

theorem candB_parts {res : Resolver} {s : String} {g : String × List String}
    (h : candB res s g = true) :
    g.2.length = 2 ∧ groupKey g = some s ∧
    resolvesPair res (groupOldRef g) (groupNewRef g) = true := by
  simp [candB, survivorB] at h
  exact ⟨h.1.1, h.1.2, h.2⟩

theorem fold_firstWin {res : Resolver} {s : String} (l : List (String × List String))
    {st : Changes × List LogMsg} (hc : changesComplete st.1)
    (h0 : dlookup (some s) st.1 = none) :
    dlookup (some s) ((l.foldl (processGroup res) st)).1 =
      match l.find? (candB res s) with
      | some g => some (RepoChange.from_images res (groupOldRef g) (groupNewRef g))
      | none => none := by
  induction l generalizing st with
  | nil => simpa using h0
  | cons g rest ih =>
    by_cases hg : candB res s g = true
    · rw [List.find?_cons_of_pos _ hg]
      obtain ⟨hlen, hkey, hres⟩ := candB_parts hg
      have hskip : skipDone st.1 (groupKey g) = false := by
        unfold skipDone
        rw [hkey, h0]
      have hstep : processGroup res st g =
          (dset (groupKey g) (RepoChange.from_images res (groupOldRef g) (groupNewRef g)) st.1,
            st.2) := by
        unfold processGroup
        rw [if_neg (by simp [hlen]), if_neg (by simp [hskip]), if_pos hres]
      rw [List.foldl_cons, hstep]
      have hc' : changesComplete (dset (groupKey g)
          (RepoChange.from_images res (groupOldRef g) (groupNewRef g)) st.1) := by
        intro p hp
        rcases mem_dset hp with rfl | hp'
        · have parts := resolvesPair_parts hres
          exact ⟨parts.2.2.1, parts.2.2.2⟩
        · exact hc p hp'
      exact fold_persist rest hc' (by rw [← hkey]; exact dlookup_dset_self ..)
    · rw [List.find?_cons_of_neg _ hg]
      rw [List.foldl_cons]
      have h1 : dlookup (some s) (processGroup res st g).1 = none := by
        unfold processGroup
        split
        · exact h0
        · split
          · exact h0
          · split
            · next hlen hskip hres =>
              have hkey : groupKey g ≠ some s := by
                intro hk
                apply hg
                simp [candB, survivorB, hk, hres]
                omega
              rw [dlookup_dset_ne (fun e => hkey e.symm)]
              exact h0
            · exact h0
      exact ih (processGroup_complete hc) h1

theorem fold_sets_slug {res : Resolver} {s : String} (l : List (String × List String))
    {st : Changes × List LogMsg} (hc : changesComplete st.1)
    (h : (∃ g ∈ l, candB res s g = true) ∨ (dlookup (some s) st.1).isSome = true) :
    (dlookup (some s) ((l.foldl (processGroup res) st)).1).isSome = true := by
  cases h0 : dlookup (some s) st.1 with
  | some rc => simp [fold_persist l hc h0]
  | none =>
    rcases h with hex | hsome
    · rw [fold_firstWin l hc h0]
      cases hf : l.find? (candB res s) with
      | some g => simp
      | none =>
        obtain ⟨g, hg, hcand⟩ := hex
        exact absurd hcand (by simpa using List.find?_eq_none.mp hf g hg)
    · rw [h0] at hsome
      simp at hsome

/-! ## Invariants of the group-building folds -/

theorem groupNew_fold_mem (Q : String → Prop) (l : List String) :
    ∀ (d : List (String × List String)), (∀ r ∈ l, Q r) →
      (∀ g ∈ d, ∀ r ∈ g.2, imageRepo r = g.1 ∧ Q r) →
      ∀ g ∈ l.foldl (fun d r => dset (imageRepo r) [r] d) d, ∀ r ∈ g.2, imageRepo r = g.1 ∧ Q r := by
  induction l with
  | nil => intro d _ hd; exact hd
  | cons x rest ih =>
    intro d hl hd
    refine ih _ (fun r hr => hl r (List.mem_cons_of_mem _ hr)) ?_
    intro g hg r hr
    rcases mem_dset hg with rfl | hg'
    · rw [List.mem_singleton.mp hr]
      exact ⟨rfl, hl x (List.mem_cons_self _ _)⟩
    · exact hd g hg' r hr

theorem addOldStep_none {d : List (String × List String)} {r : String}
    (h : dlookup (imageRepo r) d = none) : addOldStep d r = d := by
  simp [addOldStep, h]

theorem addOldStep_some_empty {d : List (String × List String)} {r : String} {l : List String}
    (h : dlookup (imageRepo r) d = some l) (he : l.isEmpty) : addOldStep d r = d := by
  simp [addOldStep, h, he]

theorem addOldStep_some {d : List (String × List String)} {r : String} {l : List String}
    (h : dlookup (imageRepo r) d = some l) (he : ¬ l.isEmpty) :
    addOldStep d r = dset (imageRepo r) (l ++ [r]) d := by
  simp [addOldStep, h, he]

theorem addOld_fold_mem (Q : String → Prop) (l : List String) :
    ∀ (d : List (String × List String)), (∀ r ∈ l, Q r) →
      (∀ g ∈ d, ∀ r ∈ g.2, imageRepo r = g.1 ∧ Q r) →
      ∀ g ∈ addOld d l, ∀ r ∈ g.2, imageRepo r = g.1 ∧ Q r := by
  induction l with
  | nil => intro d _ hd; exact hd
  | cons x rest ih =>
    intro d hl hd
    unfold addOld
    rw [List.foldl_cons]
    have hrest : ∀ r ∈ rest, Q r := fun r hr => hl r (List.mem_cons_of_mem _ hr)
    cases hdl : dlookup (imageRepo x) d with
    | none =>
      rw [addOldStep_none hdl]
      exact ih d hrest hd
    | some lst =>
      by_cases hemp : lst.isEmpty
      · rw [addOldStep_some_empty hdl hemp]
        exact ih d hrest hd
      · rw [addOldStep_some hdl hemp]
        refine ih _ hrest ?_
        intro g hg r hr
        rcases mem_dset hg with rfl | hg'
        · rcases List.mem_append.mp hr with hr' | hr'
          · exact hd _ (dlookup_mem hdl) r hr'
          · rw [List.mem_singleton.mp hr']
            exact ⟨rfl, hl x (List.mem_cons_self _ _)⟩
        · exact hd g hg' r hr

theorem buildGroups_mem {n o : List String} :
    ∀ g ∈ buildGroups n o, ∀ r ∈ g.2, imageRepo r = g.1 ∧ (r ∈ n ∨ r ∈ o) := by
  unfold buildGroups
  refine addOld_fold_mem (fun r => r ∈ n ∨ r ∈ o) o _ (fun r hr => Or.inr hr) ?_
  exact groupNew_fold_mem (fun r => r ∈ n ∨ r ∈ o) n [] (fun r hr => Or.inl hr)
    (by intro g hg; simp at hg)

theorem groupNew_fold_nodup (l : List String) :
    ∀ (d : List (String × List String)), (dkeys d).Nodup →
      (dkeys (l.foldl (fun d r => dset (imageRepo r) [r] d) d)).Nodup := by
  induction l with
  | nil => intro d hd; exact hd
  | cons x rest ih =>
    intro d hd
    exact ih _ (nodup_dkeys_dset _ _ hd)

theorem addOld_fold_nodup (l : List String) :
    ∀ (d : List (String × List String)), (dkeys d).Nodup → (dkeys (addOld d l)).Nodup := by
  induction l with
  | nil => intro d hd; exact hd
  | cons x rest ih =>
    intro d hd
    unfold addOld
    rw [List.foldl_cons]
    cases hdl : dlookup (imageRepo x) d with
    | none =>
      rw [addOldStep_none hdl]
      exact ih d hd
    | some lst =>
      by_cases hemp : lst.isEmpty
      · rw [addOldStep_some_empty hdl hemp]
        exact ih d hd
      · rw [addOldStep_some hdl hemp]
        exact ih _ (nodup_dkeys_dset _ _ hd)

theorem buildGroups_nodup (n o : List String) : (dkeys (buildGroups n o)).Nodup := by
  unfold buildGroups
  exact addOld_fold_nodup o _ (groupNew_fold_nodup n [] (by simp [dkeys]))

/-! ## The matcher output depends on the resolver only through the
traversed image references -/

theorem gitLink_congr {res res' : Resolver} {r : String}
    (h : res.upstream r = res'.upstream r) : gitLink res r = gitLink res' r := by
  simp [gitLink, h]

theorem processGroup_congr {res res' : Resolver} {st : Changes × List LogMsg}
    {g : String × List String} (h : ∀ r ∈ g.2, res.upstream r = res'.upstream r) :
    processGroup res st g = processGroup res' st g := by
  by_cases hlen : g.2.length = 2
  · obtain ⟨a, b, hab⟩ := List.length_eq_two.mp hlen
    have hnew : groupNewRef g = a := by simp [groupNewRef, hab]
    have hold : groupOldRef g = b := by simp [groupOldRef, hab]
    have ha : res.upstream a = res'.upstream a := h a (by simp [hab])
    have hb : res.upstream b = res'.upstream b := h b (by simp [hab])
    have hres : resolvesPair res (groupOldRef g) (groupNewRef g) =
        resolvesPair res' (groupOldRef g) (groupNewRef g) := by
      rw [hnew, hold]
      simp [resolvesPair, ha, hb, gitLink_congr ha, gitLink_congr hb]
    have hfrom : RepoChange.from_images res (groupOldRef g) (groupNewRef g) =
        RepoChange.from_images res' (groupOldRef g) (groupNewRef g) := by
      rw [hnew, hold]
      simp [RepoChange.from_images, ha, hb]
    unfold processGroup
    rw [hres, hfrom]
  · unfold processGroup
    rw [if_pos hlen, if_pos hlen]

theorem fold_congr {res res' : Resolver} (l : List (String × List String))
    (h : ∀ g ∈ l, ∀ r ∈ g.2, res.upstream r = res'.upstream r) :
    ∀ st, l.foldl (processGroup res) st = l.foldl (processGroup res') st := by
  induction l with
  | nil => intro st; rfl
  | cons g rest ih =>
    intro st
    rw [List.foldl_cons, List.foldl_cons,
      processGroup_congr (h g (List.mem_cons_self _ _)),
      ih (fun g' hg' => h g' (List.mem_cons_of_mem _ hg'))]

/-! ## Last-assignment-wins characterization of the first grouping loop -/

theorem groupNew_fold_dlookup (l : List String) (k : String) :
    ∀ (d : List (String × List String)),
      dlookup k (l.foldl (fun d r => dset (imageRepo r) [r] d) d) =
        match (l.filter (fun r => imageRepo r == k)).getLast? with
        | some r0 => some [r0]
        | none => dlookup k d := by
  induction l with
  | nil => intro d; rfl
  | cons x rest ih =>
    intro d
    rw [List.foldl_cons]
    rw [ih (dset (imageRepo x) [x] d)]
    by_cases hx : imageRepo x = k
    · rw [List.filter_cons, if_pos (by simp [hx])]
      cases hf : rest.filter (fun r => imageRepo r == k) with
      | nil =>
        show dlookup k (dset (imageRepo x) [x] d) = some [x]
        rw [hx]
        exact dlookup_dset_self ..
      | cons y ys =>
        rw [List.getLast?_cons_cons]
        cases hg : (y :: ys).getLast? with
        | none => simp at hg
        | some r0 => rfl
    · rw [List.filter_cons, if_neg (by simp [hx])]
      cases hr : (rest.filter (fun r => imageRepo r == k)).getLast? with
      | some r0 => rfl
      | none => exact dlookup_dset_ne (fun e => hx e.symm) _ _

/-! ## Warnings lemmas -/

theorem commitDateLookup_fst (dates : String → String → Option String) (repo sha : String) :
    (commitDateLookup dates repo sha).1 = (dates repo sha).getD "" := by
  unfold commitDateLookup
  cases dates repo sha <;> rfl

theorem commitDateLookup_no_inversion (dates : String → String → Option String)
    (repo sha : String) (a b c d : String) :
    Warning.inversion a b c d ∉ (commitDateLookup dates repo sha).2 := by
  unfold commitDateLookup
  cases dates repo sha <;> simp

theorem isSome_of_truthyS {x : Option String} (h : truthyS x = true) : x.isSome = true := by
  cases x
  · simp [truthyS] at h
  · rfl

theorem gitLink_isSome_iff {res : Resolver} {r : String} :
    (gitLink res r).isSome = true ↔
      (truthyS (codeRepo r) = true ∧ truthyS (res.upstream r) = true) := by
  unfold gitLink
  by_cases hc : truthyS (codeRepo r) = true
  · by_cases hu : truthyS (res.upstream r) = true
    · rw [if_pos (by rw [hc, hu]; rfl)]
      simp [hc, hu]
    · rw [if_neg (by simp [Bool.not_eq_true] at hu; simp [hu])]
      simp [Bool.not_eq_true] at hu
      simp [hu]
  · rw [if_neg (by simp [Bool.not_eq_true] at hc; simp [hc])]
    simp [Bool.not_eq_true] at hc
    simp [hc]

theorem isEmpty_false_of_ne {s : String} (h : s ≠ "") : s.isEmpty = false := by
  cases hse : s.isEmpty
  · rfl
  · exact absurd ((String.isEmpty_iff s).mp hse) h

theorem ne_of_isEmpty_false {s : String} (h : s.isEmpty = false) : s ≠ "" := by
  intro e
  rw [e] at h
  exact absurd h (by decide)

theorem warningsList_no_repo {rc : RepoChange} (dates : String → String → Option String)
    (h : truthyS rc.git_repo = false) : rc.warningsList dates = [] := by
  unfold RepoChange.warningsList
  rw [if_neg (by simp [h]), if_neg (by simp [h])]

theorem warningsList_main {rc : RepoChange} (dates : String → String → Option String)
    (hrepo : truthyS rc.git_repo = true) (hold : truthyS rc.old_revision = true)
    (hnew : truthyS rc.new_revision = true) :
    rc.warningsList dates =
      (commitDateLookup dates (rc.git_repo.getD "") (rc.old_revision.getD "")).2 ++
      (commitDateLookup dates (rc.git_repo.getD "") (rc.new_revision.getD "")).2 ++
      (if !((dates (rc.git_repo.getD "") (rc.old_revision.getD "")).getD "").isEmpty &&
          !((dates (rc.git_repo.getD "") (rc.new_revision.getD "")).getD "").isEmpty &&
          pyStrLe ((dates (rc.git_repo.getD "") (rc.new_revision.getD "")).getD "")
            ((dates (rc.git_repo.getD "") (rc.old_revision.getD "")).getD "") &&
          !(rc.old_revision.getD "" == rc.new_revision.getD "")
       then [Warning.inversion ((rc.new_revision.getD "").take 8)
               ((dates (rc.git_repo.getD "") (rc.new_revision.getD "")).getD "")
               ((rc.old_revision.getD "").take 8)
               ((dates (rc.git_repo.getD "") (rc.old_revision.getD "")).getD "")]
       else []) := by
  unfold RepoChange.warningsList
  rw [if_pos (by rw [hrepo, hold, hnew]; rfl)]
  dsimp only
  rw [commitDateLookup_fst, commitDateLookup_fst]

/-- C5: for a RepoChange whose old and new revisions are both present,
`warnings()` emits the time-inversion warning — naming both 8-character
short SHAs and both dates — exactly when both commit-date lookups made
during the call return nonempty dates, the new date is not strictly after
the old date (Python string order), and the two revisions differ; when
the revisions are identical the inversion warning is never emitted,
whatever the dates. -/
theorem c5_time_inversion (rc : RepoChange) (dates : String → String → Option String)
    (hold : truthyS rc.old_revision = true) (hnew : truthyS rc.new_revision = true) :
    (Warning.inversion ((rc.new_revision.getD "").take 8)
        ((dates (rc.git_repo.getD "") (rc.new_revision.getD "")).getD "")
        ((rc.old_revision.getD "").take 8)
        ((dates (rc.git_repo.getD "") (rc.old_revision.getD "")).getD "")
      ∈ rc.warningsList dates ↔
      (truthyS rc.git_repo = true ∧
       (dates (rc.git_repo.getD "") (rc.old_revision.getD "")).getD "" ≠ "" ∧
       (dates (rc.git_repo.getD "") (rc.new_revision.getD "")).getD "" ≠ "" ∧
       pyStrLe ((dates (rc.git_repo.getD "") (rc.new_revision.getD "")).getD "")
         ((dates (rc.git_repo.getD "") (rc.old_revision.getD "")).getD "") = true ∧
       rc.old_revision.getD "" ≠ rc.new_revision.getD "")) ∧
    (rc.old_revision = rc.new_revision →
      ∀ a b c d, Warning.inversion a b c d ∉ rc.warningsList dates) := by
  constructor
  · cases hrepo : truthyS rc.git_repo with
    | false =>
      rw [warningsList_no_repo dates hrepo]
      simp
    | true =>
      rw [warningsList_main dates hrepo hold hnew]
      have hA := commitDateLookup_no_inversion dates (rc.git_repo.getD "") (rc.old_revision.getD "")
        ((rc.new_revision.getD "").take 8)
        ((dates (rc.git_repo.getD "") (rc.new_revision.getD "")).getD "")
        ((rc.old_revision.getD "").take 8)
        ((dates (rc.git_repo.getD "") (rc.old_revision.getD "")).getD "")
      have hB := commitDateLookup_no_inversion dates (rc.git_repo.getD "") (rc.new_revision.getD "")
        ((rc.new_revision.getD "").take 8)
        ((dates (rc.git_repo.getD "") (rc.new_revision.getD "")).getD "")
        ((rc.old_revision.getD "").take 8)
        ((dates (rc.git_repo.getD "") (rc.old_revision.getD "")).getD "")
      constructor
      · intro hmem
        rcases List.mem_append.mp hmem with h1 | h2
        · rcases List.mem_append.mp h1 with h1a | h1b
          · exact absurd h1a hA
          · exact absurd h1b hB
        · by_cases hcond :
            (!((dates (rc.git_repo.getD "") (rc.old_revision.getD "")).getD "").isEmpty &&
             !((dates (rc.git_repo.getD "") (rc.new_revision.getD "")).getD "").isEmpty &&
             pyStrLe ((dates (rc.git_repo.getD "") (rc.new_revision.getD "")).getD "")
               ((dates (rc.git_repo.getD "") (rc.old_revision.getD "")).getD "") &&
             !(rc.old_revision.getD "" == rc.new_revision.getD "")) = true
          · simp only [Bool.and_eq_true, Bool.not_eq_true'] at hcond
            obtain ⟨⟨⟨he1, he2⟩, he3⟩, he4⟩ := hcond
            refine ⟨rfl, ?_, ?_, he3, ?_⟩
            · exact ne_of_isEmpty_false he1
            · exact ne_of_isEmpty_false he2
            · simpa using he4
          · rw [if_neg hcond] at h2
            simp at h2
      · intro ⟨h1, h2, h3, h4, h5⟩
        apply List.mem_append.mpr
        right
        rw [if_pos (by
          simp only [Bool.and_eq_true, Bool.not_eq_true']
          refine ⟨⟨⟨?_, ?_⟩, h4⟩, ?_⟩
          · exact isEmpty_false_of_ne h2
          · exact isEmpty_false_of_ne h3
          · simpa using h5)]
        exact List.mem_singleton.mpr rfl
  · intro hident a b c d
    cases hrepo : truthyS rc.git_repo with
    | false =>
      rw [warningsList_no_repo dates hrepo]
      simp
    | true =>
      cases hor : truthyS rc.old_revision <;> cases hnr : truthyS rc.new_revision
      · unfold RepoChange.warningsList
        rw [if_neg (by simp [hor]), if_pos (by simp [hrepo])]
        simp
      · unfold RepoChange.warningsList
        rw [if_neg (by simp [hor]), if_pos (by simp [hrepo])]
        simp
      · unfold RepoChange.warningsList
        rw [if_neg (by simp [hnr]), if_pos (by simp [hrepo])]
        simp
      · rw [warningsList_main dates hrepo hor hnr]
        intro hmem
        rcases List.mem_append.mp hmem with h1 | h2
        · rcases List.mem_append.mp h1 with h1a | h1b
          · exact absurd h1a (commitDateLookup_no_inversion _ _ _ _ _ _ _)
          · exact absurd h1b (commitDateLookup_no_inversion _ _ _ _ _ _ _)
        · rw [if_neg (by simp [hident])] at h2
          simp at h2

/-- Witness for C5 at a concrete RepoChange and date oracle: the old
revision resolves to date 2024-05-01, the new one to 2024-01-01, the
revisions differ, and the inversion warning with both 8-character short
SHAs and both dates is emitted. -/
theorem c5_time_inversion_witness :
    Warning.inversion "bbbbbbbb" "2024-01-01" "aaaaaaaa" "2024-05-01" ∈
      c5Rc.warningsList c5Dates := by
  have h := (c5_time_inversion c5Rc c5Dates (by decide) (by decide)).1.mpr
    ⟨by decide, by decide, by decide, by decide, by decide⟩
  exact h

/-- C6 counterexample: a RepoChange whose repo slug is absent and whose
old revision is missing produces no warnings at all — in particular no
"no old revision to compare" message — contradicting the claim that every
RepoChange with a missing revision gets that report. -/
theorem c6_counterexample :
    RepoChange.warningsList ⟨"img", none, none, some "deadbeef"⟩ (fun _ _ => none) = [] ∧
    Warning.noRevision "old" ∉
      RepoChange.warningsList ⟨"img", none, none, some "deadbeef"⟩ (fun _ _ => none) := by
  constructor
  · rfl
  · decide

/-- C6 (amended): for every RepoChange with a present (truthy) repo slug
and at least one missing revision, warnings() reports exactly
"no {which} revision to compare", determining which by checking the old
revision first: "old" when the old revision is missing (including when
both are missing), and "new" only when the old revision is present and
the new one is missing.  (Without a repo slug, warnings() is empty.) -/
theorem c6_missing_revision (rc : RepoChange) (dates : String → String → Option String)
    (hrepo : truthyS rc.git_repo = true)
    (hmiss : ¬(truthyS rc.old_revision = true ∧ truthyS rc.new_revision = true)) :
    rc.warningsList dates =
      [Warning.noRevision (if truthyS rc.old_revision = true then "new" else "old")] := by
  unfold RepoChange.warningsList
  rw [if_neg (by
      simp only [Bool.and_eq_true]
      intro hcond
      exact hmiss ⟨hcond.1.2, hcond.2⟩),
    if_pos hrepo]

/-- Witness for C6 (amended): both revisions missing and a repo slug
present gives exactly the "no old revision to compare" message. -/
theorem c6_missing_revision_witness :
    RepoChange.warningsList c6Rc (fun _ _ => none) = [Warning.noRevision "old"] := by
  have h := c6_missing_revision c6Rc (fun _ _ => none) (by decide) (by decide)
  exact h

/-- C10: warnings() returns the empty list whenever the repo slug is None
or the empty string, whatever the revisions: the missing-revision,
unknown-revision, and time-inversion checks all sit behind the repo-slug
truthiness gate. -/
theorem c10_no_repo_no_warnings (rc : RepoChange) (dates : String → String → Option String)
    (h : rc.git_repo = none ∨ rc.git_repo = some "") :
    rc.warningsList dates = [] := by
  apply warningsList_no_repo
  rcases h with h | h <;> rw [h] <;> rfl

/-- Witness for C10: empty-string repo slug, one revision present, one
missing — still no warnings. -/
theorem c10_no_repo_no_warnings_witness :
    RepoChange.warningsList c10Rc (fun _ _ => some "2024-01-01") = [] :=
  c10_no_repo_no_warnings c10Rc _ (Or.inr rfl)

theorem addOld_no_new_keys {k : String} (l : List String) :
    ∀ d, dlookup k d = none → dlookup k (addOld d l) = none := by
  induction l with
  | nil => intro d h; exact h
  | cons x rest ih =>
    intro d h
    unfold addOld
    rw [List.foldl_cons]
    cases hdl : dlookup (imageRepo x) d with
    | none =>
      rw [addOldStep_none hdl]
      exact ih d h
    | some lst =>
      by_cases hemp : lst.isEmpty
      · rw [addOldStep_some_empty hdl hemp]
        exact ih d h
      · rw [addOldStep_some hdl hemp]
        apply ih
        by_cases hk : imageRepo x = k
        · rw [hk, h] at hdl
          cases hdl
        · rw [dlookup_dset_ne (fun e => hk e.symm)]
          exact h

/-- C1 counterexample: new bundle has components A (controller) and B
(cli-tkn); old bundle has A and C (chains-controller).  Exactly one
RepoChange is produced (for the repo of A) and the missing-counterpart
log names B only — nothing at all is logged for C, the component present
only in the old bundle, contradicting the claim that the message is
logged for both B and C. -/
theorem c1_counterexample :
    (get_changes c1Res c1NewRefs c1OldRefs).2 =
      [LogMsg.skipMissingImage "pipelines-cli-tkn-rhel9"] ∧
    LogMsg.skipMissingImage "pipelines-chains-controller-rhel9" ∉
      (get_changes c1Res c1NewRefs c1OldRefs).2 ∧
    LogMsg.skipNoUpstreamInfo "pipelines-chains-controller-rhel9" ∉
      (get_changes c1Res c1NewRefs c1OldRefs).2 := by
  exact ⟨by decide, by decide, by decide⟩

/-- C1 (amended): in the example, exactly one RepoChange (for the repo of
A) is produced; "missing counterpart" (the skip-missing-image log) is
emitted for B, the component present only in the new bundle; C, present
only in the old bundle, never forms a group — in general an old-bundle
component whose name has no group from the new bundle is dropped silently,
with no log and no RepoChange. -/
theorem c1_missing_counterpart :
    (get_changes c1Res c1NewRefs c1OldRefs =
      ([(some "tektoncd/pipeline",
         ⟨"pipelines-controller-rhel9", some "tektoncd/pipeline", some "oldA", some "newA"⟩)],
       [LogMsg.skipMissingImage "pipelines-cli-tkn-rhel9"])) ∧
    (∀ (n o : List String) (k : String),
      dlookup k (groupNew n) = none → dlookup k (buildGroups n o) = none) := by
  constructor
  · decide
  · intro n o k h
    exact addOld_no_new_keys o (groupNew n) h

/-- Witness for the general conjunct of the amended C1: the old-only
component C never appears as a group key. -/
theorem c1_missing_counterpart_witness :
    dlookup "pipelines-chains-controller-rhel9" (buildGroups c1NewRefs c1OldRefs) = none :=
  c1_missing_counterpart.2 c1NewRefs c1OldRefs "pipelines-chains-controller-rhel9" (by decide)

/-- C2 counterexample: the new bundle lists two references with the same
component name; the group keeps the second-traversed reference (plain
dict assignment overwrites) and the emitted RepoChange carries the second
upstream commit u2, not the first-encountered u1, contradicting the claim
that the first-encountered image is kept. -/
theorem c2_counterexample :
    dlookup "pipelines-controller-rhel9" (groupNew c2NewRefs) =
      some ["b/pipelines-controller-rhel9@sha256:2"] ∧
    (get_changes c2Res c2NewRefs c2OldRefs).1 =
      [(some "tektoncd/pipeline",
        ⟨"pipelines-controller-rhel9", some "tektoncd/pipeline", some "u3", some "u2"⟩)] ∧
    (["a/pipelines-controller-rhel9@sha256:1"] : List String) ≠
      ["b/pipelines-controller-rhel9@sha256:2"] := by
  exact ⟨by decide, by decide, by decide⟩

/-- C2 (amended): when a component name occurs with two or more
references in the new bundle traversal, the grouping loop keeps only the
last-encountered reference for that name (each dict assignment
overwrites the previous one), so earlier references do not participate in
the comparison. -/
theorem c2_last_encountered (newRefs : List String) (k : String) (r0 : String)
    (h : (newRefs.filter (fun r => imageRepo r == k)).getLast? = some r0) :
    dlookup k (groupNew newRefs) = some [r0] := by
  have hg := groupNew_fold_dlookup newRefs k []
  rw [h] at hg
  exact hg

/-- Witness for the amended C2 at the concrete duplicate-name bundle. -/
theorem c2_last_encountered_witness :
    dlookup "pipelines-controller-rhel9" (groupNew c2NewRefs) =
      some ["b/pipelines-controller-rhel9@sha256:2"] :=
  c2_last_encountered c2NewRefs "pipelines-controller-rhel9"
    "b/pipelines-controller-rhel9@sha256:2" (by decide)

/-- C4 counterexample: for repo/name:tag (tag, no digest) the computed
component name is "name:tag", not "name" — the tag is not stripped, since
only the part after the first at-sign is cut before taking the last path
segment. -/
theorem c4_counterexample :
    imageRepo "repo/name:tag" = "name:tag" ∧ imageRepo "repo/name:tag" ≠ "name" := by
  exact ⟨by decide, by decide⟩

/-- C4 (amended): the component name is the substring after the last
slash of the substring before the first at-sign; a digest suffix is
ignored (repo/name@sha256:d gives name), but a tag remains part of the
extracted component name (repo/name:tag gives name:tag, and
repo/name:tag@sha256:d gives name:tag). -/
theorem c4_component_name_extraction :
    imageRepo "repo/name@sha256:abcdef" = "name" ∧
    imageRepo "quay.io/org/name@sha256:abcdef" = "name" ∧
    imageRepo "repo/name:tag" = "name:tag" ∧
    imageRepo "repo/name:tag@sha256:abcdef" = "name:tag" ∧
    imageRepo "name" = "name" := by
  exact ⟨by decide, by decide, by decide, by decide, by decide⟩

/-- C7 counterexample: with an empty cache and a failing transport,
commits() does not return an empty list — the error propagates out of the
comparison fetch to the caller (which catches and logs it in the CLI
layer). -/
theorem c7_counterexample :
    (commitsStep none none).1 = Except.error () ∧
    (commitsStep none none).1 ≠ Except.ok [] := by
  exact ⟨rfl, fun h => Except.noConfusion h⟩

/-- C7 (amended): the comparison payload is fetched at most once across
successful calls: a populated cache answers with zero fetches, and the
first successful call stores the response.  A transport failure is not
converted into an empty commit list: the error propagates to the caller,
and nothing is cached, so a later call fetches again. -/
theorem c7_fetch_memoization (resp : ComparisonResp) (remote : Option ComparisonResp) :
    comparisonStep (some resp) remote = ⟨Except.ok resp, some resp, 0⟩ ∧
    comparisonStep none (some resp) = ⟨Except.ok resp, some resp, 1⟩ ∧
    (commitsStep none (some resp)).1 = Except.ok (resp.commits.getD []) ∧
    commitsStep none none = (Except.error (), none, 1) := by
  exact ⟨rfl, rfl, rfl, rfl⟩

/-- C8 counterexample: one deduplicated reference set traversed in two
different (both valid) set-iteration orders produces different outputs,
because the last-assignment-wins grouping picks different winners; so
equal decoded data and equal resolver answers do not by themselves
determine the RepoChange set. -/
theorem c8_counterexample :
    isSetOrder c8Refs c8Refs ∧ isSetOrder c8Refs c8Ord2 ∧
    get_changes c8Res c8Refs c8OldRefs ≠ get_changes c8Res c8Ord2 c8OldRefs := by
  refine ⟨?_, ?_, by decide⟩ <;>
    (unfold isSetOrder; exact ⟨by decide, by decide, by decide⟩)

/-- C8 (amended): the matcher is deterministic relative to the traversal
order: its output depends only on the two ordered reference lists and the
resolver answers on the references they contain, so two runs that
traverse the bundles in the same order with agreeing resolver answers
produce the same result.  The traversal order itself comes from Python
set iteration and is not determined by the decoded data. -/
theorem c8_deterministic_given_order (res resB : Resolver) (n o : List String)
    (h : ∀ r ∈ n ++ o, res.upstream r = resB.upstream r) :
    get_changes res n o = get_changes resB n o := by
  unfold get_changes
  exact fold_congr _
    (fun g hg r hr => h r (List.mem_append.mpr (buildGroups_mem g hg r hr).2)) ([], [])

/-- Witness for the amended C8: two resolvers that agree on every
traversed reference (but differ on an unrelated one) give identical
outputs. -/
theorem c8_deterministic_given_order_witness :
    get_changes c8Res c8Refs c8OldRefs = get_changes c8ResB c8Refs c8OldRefs :=
  c8_deterministic_given_order c8Res c8ResB c8Refs c8OldRefs (by decide)

/-- C9 counterexample: after a handle was created (container id
recorded), a second clean() issues the removal command again instead of
being a no-op — the id is never cleared by clean(). -/
theorem c9_counterexample :
    (cleanTwice ⟨some "cid"⟩).2 =
      [CleanAction.removeContainer "cid", CleanAction.removeContainer "cid"] ∧
    (cleanStep (cleanStep ⟨some "cid"⟩).1).2 ≠ [] := by
  exact ⟨rfl, by decide⟩

/-- C9 (amended): clean() is a no-op when no handle was ever created;
when a container id is recorded, every call issues the removal command
and leaves the id in place, so a second clean() repeats the removal
rather than being a no-op. -/
theorem c9_clean_behavior (cid : String) :
    cleanStep ⟨none⟩ = (⟨none⟩, []) ∧
    cleanStep ⟨some cid⟩ = (⟨some cid⟩, [CleanAction.removeContainer cid]) ∧
    cleanTwice ⟨some cid⟩ =
      (⟨some cid⟩, [CleanAction.removeContainer cid, CleanAction.removeContainer cid]) := by
  exact ⟨rfl, rfl, rfl⟩

/-- C3: when two or more surviving component pairs key to the same
nonempty upstream-repo slug s and at least one of them fully resolves,
the matcher emits exactly one RepoChange for s — built from the
first-traversed pairing whose images resolve (for pairs keyed to a
nonempty slug, resolving is exactly: both upstream commits resolve, see
the third conjunct) — and every pairing for s traversed after that winner
is dropped without any effect: removing it from the traversal changes
neither the changes dict nor the log. -/
theorem c3_first_pairing_wins (res : Resolver) (newRefs oldRefs : List String) (s : String)
    (hs : s ≠ "")
    (_htwo : 2 ≤ ((buildGroups newRefs oldRefs).filter (survivorB s)).length)
    (_hcand : ∃ g ∈ buildGroups newRefs oldRefs, candB res s g = true) :
    (∀ g, (buildGroups newRefs oldRefs).find? (candB res s) = some g →
      (get_changes res newRefs oldRefs).1.filter (fun p => p.1 == some s) =
        [(some s, RepoChange.from_images res (groupOldRef g) (groupNewRef g))]) ∧
    (∀ pre g post, buildGroups newRefs oldRefs = pre ++ g :: post →
      survivorB s g = true → (∃ c ∈ pre, candB res s c = true) →
      get_changes res newRefs oldRefs = (pre ++ post).foldl (processGroup res) ([], [])) ∧
    (∀ g ∈ buildGroups newRefs oldRefs, survivorB s g = true →
      (candB res s g = true ↔
        (truthyS (res.upstream (groupOldRef g)) = true ∧
         truthyS (res.upstream (groupNewRef g)) = true))) := by
  have hinit : changesComplete (([], []) : Changes × List LogMsg).1 := by
    intro p hp
    cases hp
  refine ⟨?_, ?_, ?_⟩
  · intro g hfind
    obtain ⟨hlen, hkey, hres⟩ := candB_parts (List.find?_some hfind)
    have hwin : dlookup (some s)
        (((buildGroups newRefs oldRefs).foldl (processGroup res) ([], [])).1) =
        some (RepoChange.from_images res (groupOldRef g) (groupNewRef g)) := by
      rw [fold_firstWin _ hinit rfl, hfind]
    have hnodup : (dkeys (((buildGroups newRefs oldRefs).foldl
        (processGroup res) ([], [])).1)).Nodup :=
      fold_nodup _ List.nodup_nil
    unfold get_changes
    exact filter_key_of_dlookup hnodup hwin
  · intro pre g post heq hsurv hex
    have hparts : g.2.length = 2 ∧ groupKey g = some s := by
      simpa [survivorB] using hsurv
    have hsets := fold_sets_slug pre hinit (Or.inl hex)
    obtain ⟨rc, hrc⟩ := Option.isSome_iff_exists.mp hsets
    unfold get_changes
    rw [heq, List.foldl_append, List.foldl_append, List.foldl_cons]
    congr 1
    exact processGroup_inert (fold_complete pre hinit) hparts.1
      (by rw [hparts.2]; exact hrc)
  · intro g hg hsurv
    have hparts : g.2.length = 2 ∧ groupKey g = some s := by
      simpa [survivorB] using hsurv
    obtain ⟨a, b, hab⟩ := List.length_eq_two.mp hparts.1
    have hnewg : groupNewRef g = a := by simp [groupNewRef, hab]
    have holdg : groupOldRef g = b := by simp [groupOldRef, hab]
    have hmema : imageRepo a = g.1 := (buildGroups_mem g hg a (by simp [hab])).1
    have hmemb : imageRepo b = g.1 := (buildGroups_mem g hg b (by simp [hab])).1
    have hkeya : codeRepo a = some s := by
      have hk := hparts.2
      unfold groupKey at hk
      rw [hnewg] at hk
      exact hk
    have hkeyb : codeRepo b = some s := by
      unfold codeRepo at hkeya ⊢
      rw [hmemb, ← hmema]
      exact hkeya
    constructor
    · intro hc
      obtain ⟨_, _, hres⟩ := candB_parts hc
      have parts := resolvesPair_parts hres
      have h1 := gitLink_isSome_iff.mp parts.1
      have h2 := gitLink_isSome_iff.mp parts.2.1
      exact ⟨h1.2, h2.2⟩
    · intro hup
      have htCodeOld : truthyS (codeRepo (groupOldRef g)) = true := by
        rw [holdg, hkeyb]
        simp [truthyS, isEmpty_false_of_ne hs]
      have htCodeNew : truthyS (codeRepo (groupNewRef g)) = true := by
        rw [hnewg, hkeya]
        simp [truthyS, isEmpty_false_of_ne hs]
      have hglOld : (gitLink res (groupOldRef g)).isSome = true :=
        gitLink_isSome_iff.mpr ⟨htCodeOld, hup.1⟩
      have hglNew : (gitLink res (groupNewRef g)).isSome = true :=
        gitLink_isSome_iff.mpr ⟨htCodeNew, hup.2⟩
      unfold candB
      rw [hsurv]
      simp [resolvesPair, hglOld, hglNew, isSome_of_truthyS hup.1, isSome_of_truthyS hup.2]

/-- Witness for C3: two components (controller and webhook) both map to
the repo slug tektoncd/pipeline; all four images resolve; the single
RepoChange kept for that slug is the one built from the first-traversed
pairing (the controller pair). -/
theorem c3_first_pairing_wins_witness :
    (get_changes c3Res c3NewRefs c3OldRefs).1.filter
        (fun p => p.1 == some "tektoncd/pipeline") =
      [(some "tektoncd/pipeline",
        ⟨"pipelines-controller-rhel9", some "tektoncd/pipeline",
         some "cOld", some "cNew"⟩)] := by
  have h := (c3_first_pairing_wins c3Res c3NewRefs c3OldRefs "tektoncd/pipeline"
    (by decide) (by decide) (by decide)).1
    ("pipelines-controller-rhel9",
      ["x/pipelines-controller-rhel9@sha256:n1", "x/pipelines-controller-rhel9@sha256:o1"])
    (by decide)
  exact h
